import Mathlib

/-!
# Verification of the swap session core (`libwallet/src/swap/swap.rs`)

A shallow embedding of the swap session object of this repository's wallet:
the `Swap` record, its time-schedule derivation, amount helpers, the common
nonce of the two-party multisig, canonical input/output insertion into
slates, signature-to-secret extraction, and the length-prefixed JSON session
serialization.  Machine integers (`u64`) are embedded as `Nat` together with
explicit reductions `% 2 ^ 64` wherever the Rust arithmetic wraps.

Types that `swap.rs` takes from its sibling modules (`types.rs`,
`multisig.rs`, `error.rs`) or from external crates (secp, grin core) are
modelled at the granularity the verified properties need; each such model
carries a comment naming its origin.
-/

namespace MwcSwap

/-- The modulus of `u64` arithmetic. -/
def W : Nat := 2 ^ 64

/-- `u64` wrapping addition (both arguments below `W`). -/
def wadd (a b : Nat) : Nat := (a + b) % W

/-- `u64` wrapping multiplication (both arguments below `W`). -/
def wmul (a b : Nat) : Nat := a * b % W

/-- `u64` wrapping subtraction (both arguments below `W`). -/
def wsub (a b : Nat) : Nat := (a + W - b) % W

/-- The `grin_core` transaction output feature flag (external crate
`grin_core::core::transaction::OutputFeatures`): either a plain or a
coinbase output. -/
inductive OutputFeatures where
  | Plain
  | Coinbase
deriving DecidableEq, Repr

/-- Rank of a feature flag, used to order inputs and outputs. -/
def OutputFeatures.tag : OutputFeatures → Nat
  | OutputFeatures.Plain => 0
  | OutputFeatures.Coinbase => 1

/-- A transaction input (external crate `grin_core`): a feature flag and a
Pedersen commitment.  Commitments (33-byte compressed points) are modelled
as opaque naturals. -/
structure Input where
  features : OutputFeatures
  commit : Nat
deriving DecidableEq, Repr

/-- A transaction output (external crate `grin_core`): a feature flag, a
Pedersen commitment and a range proof (both modelled as opaque naturals). -/
structure Output where
  features : OutputFeatures
  commit : Nat
  proof : Nat
deriving DecidableEq, Repr

/-- Sort key of an input.  `grin_core` gives inputs a total order (its
`hashable_ord!` macro); the verified properties hold for any linear order,
and we model it as the lexicographic order on (features, commitment). -/
def Input.key (i : Input) : Lex (Nat × Nat) := toLex (i.features.tag, i.commit)

/-- Sort key of an output, analogous to `Input.key`. -/
def Output.key (o : Output) : Lex (Nat × Lex (Nat × Nat)) :=
  toLex (o.features.tag, toLex (o.commit, o.proof))

theorem OutputFeatures.tag_injective :
    Function.Injective OutputFeatures.tag := by
  intro a b h
  cases a <;> cases b <;> simp [OutputFeatures.tag] at h ⊢

theorem input_key_injective : Function.Injective Input.key := by
  intro a b h
  cases a; cases b
  have h2 := toLex.injective h
  simp only [Prod.mk.injEq] at h2
  simp [OutputFeatures.tag_injective h2.1, h2.2]

theorem output_key_injective : Function.Injective Output.key := by
  intro a b h
  cases a; cases b
  have h2 := toLex.injective h
  simp only [Prod.mk.injEq] at h2
  have h3 := toLex.injective h2.2
  simp only [Prod.mk.injEq] at h3
  simp [OutputFeatures.tag_injective h2.1, h3.1, h3.2]

instance : LinearOrder Input := LinearOrder.lift' Input.key input_key_injective

instance : LinearOrder Output := LinearOrder.lift' Output.key output_key_injective

/-- One entry of a slate's `participant_data` (grin `ParticipantData`):
the participant's public nonce and public blind excess, modelled as opaque
curve points (naturals). -/
structure ParticipantData where
  public_nonce : Nat
  public_blind_excess : Nat
deriving DecidableEq, Repr

/-- The transaction body embedded in a slate (grin `Transaction`), reduced
to its input and output lists, the only parts `swap.rs` mutates. -/
structure TxBody where
  inputs : List Input
  outputs : List Output
deriving DecidableEq, Repr

/-- A primary-chain slate (grin `Slate`), reduced to the fields `swap.rs`
reads: the kernel fee, the embedded transaction and the participant data. -/
structure Slate where
  fee : Nat
  tx : TxBody
  participant_data : List ParticipantData
deriving DecidableEq, Repr

/-- Modelled from the spec: one participant slot of the two-party multisig
builder (`multisig.rs`, not under `src/`), holding the optional partial
commitment imported from or created by that participant.  Commitments are
modelled as opaque naturals. -/
structure MsParticipant where
  partial_commitment : Option Nat
deriving DecidableEq, Repr

/-- Modelled from the spec: the Schnorr multisig builder state
(`multisig.rs`, not under `src/`), reduced to its participant slots. -/
structure MultisigBuilder where
  participants : List MsParticipant
deriving DecidableEq, Repr

/-- The party's role (`types.rs`, not under `src/`; shape fixed by the
spec's data model): `Seller(refund_address, change_amount)` or `Buyer`.
The textual address is modelled as an opaque natural. -/
inductive Role where
  | Seller (address : Nat) (change : Nat)
  | Buyer
deriving DecidableEq, Repr

/-- The network tag (`types.rs`, not under `src/`; spec: mainnet/floonet). -/
inductive Network where
  | Mainnet
  | Floonet
deriving DecidableEq, Repr

/-- Modelled from the spec: the secondary currency tag (`types.rs`, not
under `src/`), reduced to the block time period it carries. -/
structure Currency where
  block_time_period_sec : Nat
deriving DecidableEq, Repr

/-- The primary swap state of `swap.rs` (`struct Swap`).  Fields not read
by any verified property (`idx`, FSM state id, secondary data, optional
keys/signatures, cached messages) are elided; `started` holds the value of
`started.timestamp() as u64`.  UUIDs are modelled as opaque naturals. -/
structure Swap where
  id : Nat
  version : Nat
  network : Network
  role : Role
  seller_lock_first : Bool
  started : Nat
  primary_amount : Nat
  secondary_amount : Nat
  secondary_currency : Currency
  participant_id : Nat
  multisig : MultisigBuilder
  lock_slate : Slate
  refund_slate : Slate
  redeem_slate : Slate
  mwc_confirmations : Nat
  secondary_confirmations : Nat
  message_exchange_time_sec : Nat
  redeem_time_sec : Nat
deriving DecidableEq, Repr

namespace Swap

/-- `Swap::is_seller`. -/
def is_seller (s : Swap) : Bool :=
  match s.role with
  | Role.Seller _ _ => true
  | Role.Buyer => false

/-- `Swap::refund_amount`: `primary_amount - refund_slate.fee` on `u64`. -/
def refund_amount (s : Swap) : Nat :=
  wsub s.primary_amount s.refund_slate.fee

/-- `Swap::other_participant_id`. -/
def other_participant_id (s : Swap) : Nat :=
  (s.participant_id + 1) % 2

-- Time management functions of `swap.rs`, with `u64` wrapping made
-- explicit through `wadd`/`wmul`/`wsub`.

/-- `Swap::get_timeinterval_mwc_lock`: `mwc_confirmations * 60 * 11 / 10`. -/
def get_timeinterval_mwc_lock (s : Swap) : Nat :=
  wmul (wmul s.mwc_confirmations 60) 11 / 10

/-- `Swap::get_timeinterval_btc_lock`:
`secondary_confirmations * block_time_period_sec * 11 / 10`. -/
def get_timeinterval_btc_lock (s : Swap) : Nat :=
  wmul (wmul s.secondary_confirmations s.secondary_currency.block_time_period_sec) 11 / 10

/-- `Swap::get_time_start`: `started.timestamp() as u64`. -/
def get_time_start (s : Swap) : Nat := s.started

/-- `Swap::get_time_message_offers`. -/
def get_time_message_offers (s : Swap) : Nat :=
  wadd s.get_time_start s.message_exchange_time_sec

/-- `Swap::get_time_start_lock`. -/
def get_time_start_lock (s : Swap) : Nat :=
  wadd s.get_time_message_offers
    (max s.get_timeinterval_mwc_lock s.get_timeinterval_btc_lock / 20)

/-- `Swap::get_time_locking`. -/
def get_time_locking (s : Swap) : Nat :=
  wadd s.get_time_message_offers
    (max s.get_timeinterval_mwc_lock s.get_timeinterval_btc_lock)

/-- `Swap::get_time_message_redeem`. -/
def get_time_message_redeem (s : Swap) : Nat :=
  wadd s.get_time_locking s.message_exchange_time_sec

/-- `Swap::get_time_mwc_redeem`. -/
def get_time_mwc_redeem (s : Swap) : Nat :=
  wadd s.get_time_message_redeem s.redeem_time_sec

/-- `Swap::get_time_mwc_lock`. -/
def get_time_mwc_lock (s : Swap) : Nat :=
  wadd s.get_time_mwc_redeem s.get_timeinterval_mwc_lock

/-- `Swap::get_time_mwc_refund`. -/
def get_time_mwc_refund (s : Swap) : Nat :=
  wadd s.get_time_mwc_lock s.redeem_time_sec

/-- `Swap::get_time_btc_lock`. -/
def get_time_btc_lock (s : Swap) : Nat :=
  wadd (wadd (wadd s.get_time_mwc_refund s.redeem_time_sec) s.get_timeinterval_mwc_lock)
    s.get_timeinterval_btc_lock

/-- `Swap::get_time_btc_redeem_limit`. -/
def get_time_btc_redeem_limit (s : Swap) : Nat :=
  wsub s.get_time_btc_lock s.get_timeinterval_btc_lock

end Swap

/-- The error kinds of the swap module (`error.rs`, not under `src/`;
constructors follow the spec's error-handling design, with
`multisig::ErrorKind::MultiSigIncomplete` folded in through its `From`
conversion as in `common_nonce`).  Payload strings are dropped. -/
inductive ErrorKind where
  | InvalidState
  | UnexpectedAction
  | UnexpectedRole
  | MultiSigIncomplete
  | InvalidProof
  | InvalidSignature
  | Secp
  | Generic
deriving DecidableEq, Repr

/-- Modelled from the spec: the seller half of the private context
(`types.rs`, not under `src/`): the funding inputs as
(key identifier, optional mmr index, value) triples and the change output's
key identifier.  Identifiers are modelled as opaque naturals. -/
structure SellerContext where
  inputs : List (Nat × Option Nat × Nat)
  change_output : Nat
deriving DecidableEq, Repr

/-- Modelled from the spec: the private context (`types.rs`, not under
`src/`), reduced to the multisig key path and the role-specific half. -/
inductive RoleContext where
  | SellerCtx (sc : SellerContext)
  | BuyerCtx
deriving DecidableEq, Repr

/-- Modelled from the spec: the session's private `Context`. -/
structure Context where
  multisig_key : Nat
  role_context : RoleContext
deriving DecidableEq, Repr

/-- `Context::unwrap_seller` (`types.rs`, not under `src/`): the seller
half, or `UnexpectedRole` on a buyer context. -/
def Context.unwrap_seller (c : Context) : Except ErrorKind SellerContext :=
  match c.role_context with
  | RoleContext.SellerCtx sc => Except.ok sc
  | RoleContext.BuyerCtx => Except.error ErrorKind.UnexpectedRole

/-- `Swap::change_output`.  The keychain's `commit` (external) is passed in
as `commitFn amount identifier`.  The seller inputs' values are folded with
`u64` addition and the session's `primary_amount` is removed with
`saturating_sub` (which `Nat` subtraction models exactly).  The leading
`assert!(is_seller)` of the source is a panic, outside the embedded result;
the verified properties only cover seller sessions. -/
def Swap.change_output (commitFn : Nat → Nat → Nat) (s : Swap) (context : Context) :
    Except ErrorKind (Nat × Nat × Nat) := do
  let scontext ← context.unwrap_seller
  let identifier := scontext.change_output
  let amount :=
    (scontext.inputs.foldl (fun acc t => wadd acc t.2.2) 0) - s.primary_amount
  let commit := commitFn amount identifier
  Except.ok (identifier, amount, commit)

/-- The order of the secp256k1 group (external secp crate), the modulus of
scalar arithmetic. -/
def secpN : Nat :=
  115792089237316195423570985008687907852837564279074904382605163141518161494337

/-- `Swap::common_nonce`.  The external pieces — `Hashed::hash` on a partial
commitment followed by `Hash::to_secret_key`, either of which can fail — are
passed in as one fallible `hashScalar`; `secp.blind_sum` over positive keys
is scalar addition modulo the group order. -/
def Swap.common_nonce (hashScalar : Nat → Option Nat) (s : Swap) :
    Except ErrorKind Nat :=
  let hashed_nonces :=
    s.multisig.participants.filterMap
      (fun p => p.partial_commitment.bind hashScalar)
  if hashed_nonces.length ≠ 2 then Except.error ErrorKind.MultiSigIncomplete
  else Except.ok (hashed_nonces.foldl (fun acc h => (acc + h) % secpN) 0)

/-- `PublicKey::from_combination` (external secp crate): combines public
keys by group addition and fails on an empty list, as
`secp256k1_ec_pubkey_combine` does.  Curve points are modelled as an
additive monoid of opaque naturals. -/
def from_combination (keys : List Nat) : Except ErrorKind Nat :=
  match keys with
  | [] => Except.error ErrorKind.Secp
  | _ => Except.ok keys.sum

/-- `KernelFeatures::Plain { fee }.kernel_sig_msg()` (external grin crate):
the kernel signature message, an injective digest of the plain-kernel
features, modelled as the fee itself; for plain features it cannot fail. -/
def kernel_sig_msg (fee : Nat) : Except ErrorKind Nat := Except.ok fee

/-- `Swap::redeem_tx_fields`: the public nonce sum, public blind-excess sum
and kernel message of a redeem slate. -/
def Swap.redeem_tx_fields (redeem_slate : Slate) :
    Except ErrorKind (Nat × Nat × Nat) := do
  let pub_nonce_sum ←
    from_combination (redeem_slate.participant_data.map ParticipantData.public_nonce)
  let pub_blind_sum ←
    from_combination (redeem_slate.participant_data.map ParticipantData.public_blind_excess)
  let message ← kernel_sig_msg redeem_slate.fee
  Except.ok (pub_nonce_sum, pub_blind_sum, message)

-- Rust's `slice::binary_search`, used by `tx_add_input` / `tx_add_output`.

/-- The loop of Rust's `slice::binary_search_by` over a list: probes
`l[mid]` with `mid = left + (right - left) / 2` and narrows `[left, right)`;
`Except.ok i` is Rust's `Ok(i)` (found at `i`), `Except.error e` is
`Err(e)` (insert before `e`).  Out-of-range probes (never reached while
`right ≤ l.length`) default to `x` itself. -/
def bsAux {α : Type} [LinearOrder α] (l : List α) (x : α) (left right : Nat) :
    Except Nat Nat :=
  if _h : left < right then
    match compare (l.getD (left + (right - left) / 2) x) x with
    | Ordering.lt => bsAux l x (left + (right - left) / 2 + 1) right
    | Ordering.gt => bsAux l x left (left + (right - left) / 2)
    | Ordering.eq => Except.ok (left + (right - left) / 2)
  else Except.error left
termination_by right - left
decreasing_by
  all_goals omega

/-- Rust's `slice::binary_search` over the whole list. -/
def binary_search {α : Type} [LinearOrder α] (l : List α) (x : α) :
    Except Nat Nat :=
  bsAux l x 0 l.length

/-- The shared tail of `tx_add_input` / `tx_add_output`:
`v.binary_search(&y).err().map(|e| v.insert(e, y))` — insert at the reported
position on `Err`, leave the vector alone on `Ok`. -/
def insert_canonical {α : Type} [LinearOrder α] (l : List α) (y : α) : List α :=
  match binary_search l y with
  | Except.ok _ => l
  | Except.error e => l.insertIdx e y

/-- `tx_add_input`: insert a `Plain` input with the given commitment at the
position binary search determines, or do nothing when it is found. -/
def tx_add_input (slate : Slate) (commit : Nat) : Slate :=
  { slate with tx := { slate.tx with
      inputs := insert_canonical slate.tx.inputs ⟨OutputFeatures.Plain, commit⟩ } }

/-- `tx_add_output`: insert a `Plain` output with the given commitment and
proof at the position binary search determines, or do nothing when it is
found. -/
def tx_add_output (slate : Slate) (commit : Nat) (proof : Nat) : Slate :=
  { slate with tx := { slate.tx with
      outputs := insert_canonical slate.tx.outputs
        ⟨OutputFeatures.Plain, commit, proof⟩ } }

/-- Big-endian value of a byte list (external secp crate's reading of a
32-byte scalar slice). -/
def bytesBE (bs : List Nat) : Nat :=
  bs.foldl (fun acc b => acc * 256 + b) 0

/-- `SecretKey::from_slice` (external secp crate): accepts exactly 32 bytes
whose big-endian value is a valid scalar — nonzero and below the group
order — and fails otherwise. -/
def secretKey_from_slice (bs : List Nat) : Except ErrorKind Nat :=
  if bs.length = 32 ∧ bytesBE bs ≠ 0 ∧ bytesBE bs < secpN then
    Except.ok (bytesBE bs)
  else Except.error ErrorKind.Secp

/-- `signature_as_secret`: a Schnorr signature's 64-byte raw data
(`to_raw_data`) with bytes [32..64) — the `s` value — read back as a secret
key.  Signatures are modelled as their 64-byte raw data. -/
def signature_as_secret (signature : List Nat) : Except ErrorKind Nat :=
  secretKey_from_slice (signature.drop 32)

/-! ## C8: session serialization

`impl ser::Writeable for Swap` writes `serde_json::to_vec(self)` through
`Writer::write_bytes` (a `u64` big-endian length prefix followed by the
bytes); `impl ser::Readable for Swap` reads the prefix-framed bytes back
with `read_bytes_len_prefix` and decodes them with
`serde_json::from_slice`.  The framing is embedded exactly.  The JSON codec
itself lives in serde and in this repository's `swap/ser.rs` field adapters
(not under `src/`); following the spec — «the session serializes to a
length-prefixed JSON byte string; round-trip through this format MUST be
lossless» — it is modelled as a concrete injective byte encoding of the
session record with a matching decoder: every field is rendered as its
decimal digits (as `secp_ser::string_or_u64` does for the amounts) behind a
separator byte, lists behind their length. -/

/-- Little-endian decimal digits, structurally recursive on a fuel bound
(the number itself suffices, since `n / 10 < n` for positive `n`). -/
def natDigitsLEAux : Nat → Nat → List Nat
  | _, 0 => []
  | 0, _ + 1 => []
  | fuel + 1, n + 1 => (n + 1) % 10 :: natDigitsLEAux fuel ((n + 1) / 10)

/-- Little-endian decimal digits of a natural number (`0` has no digits). -/
def natDigitsLE (n : Nat) : List Nat := natDigitsLEAux n n

/-- Value of a little-endian digit list. -/
def fromDigitsLE : List Nat → Nat
  | [] => 0
  | d :: ds => d + 10 * fromDigitsLE ds

/-- Modelled from the spec: one scalar of the JSON rendering — decimal
digits (byte `48 + d`) terminated by a separator byte `44`. -/
def encodeNum (n : Nat) : List Nat := (natDigitsLE n).map (fun d => d + 48) ++ [44]

/-- Decoder for `encodeNum`: digits up to the separator, little-endian. -/
def parseNum : List Nat → Option (Nat × List Nat)
  | [] => none
  | b :: bs =>
    if b = 44 then some (0, bs)
    else if 48 ≤ b ∧ b < 58 then
      (parseNum bs).map (fun p => ((b - 48) + 10 * p.1, p.2))
    else none

/-- Modelled from the spec: JSON rendering of the role tag and its seller
payload. -/
def encodeRole : Role → List Nat
  | Role.Seller a ch => encodeNum 0 ++ (encodeNum a ++ encodeNum ch)
  | Role.Buyer => encodeNum 1

/-- Decoder for `encodeRole`. -/
def parseRole (bs : List Nat) : Option (Role × List Nat) :=
  match parseNum bs with
  | none => none
  | some (0, bs1) =>
    match parseNum bs1 with
    | none => none
    | some (a, bs2) =>
      match parseNum bs2 with
      | none => none
      | some (ch, bs3) => some (Role.Seller a ch, bs3)
  | some (1, bs1) => some (Role.Buyer, bs1)
  | some _ => none

/-- Modelled from the spec: JSON rendering of a boolean. -/
def encodeBool (b : Bool) : List Nat := encodeNum (if b then 1 else 0)

/-- Decoder for `encodeBool`. -/
def parseBool (bs : List Nat) : Option (Bool × List Nat) :=
  match parseNum bs with
  | none => none
  | some (0, bs1) => some (false, bs1)
  | some (1, bs1) => some (true, bs1)
  | some _ => none

/-- Modelled from the spec: JSON rendering of the network tag. -/
def encodeNetwork (n : Network) : List Nat :=
  encodeNum (match n with | Network.Mainnet => 0 | Network.Floonet => 1)

/-- Decoder for `encodeNetwork`. -/
def parseNetwork (bs : List Nat) : Option (Network × List Nat) :=
  match parseNum bs with
  | none => none
  | some (0, bs1) => some (Network.Mainnet, bs1)
  | some (1, bs1) => some (Network.Floonet, bs1)
  | some _ => none

/-- Modelled from the spec: JSON rendering of an optional scalar. -/
def encodeOptNat : Option Nat → List Nat
  | none => encodeNum 0
  | some v => encodeNum 1 ++ encodeNum v

/-- Decoder for `encodeOptNat`. -/
def parseOptNat (bs : List Nat) : Option (Option Nat × List Nat) :=
  match parseNum bs with
  | none => none
  | some (0, bs1) => some (none, bs1)
  | some (1, bs1) =>
    match parseNum bs1 with
    | none => none
    | some (v, bs2) => some (some v, bs2)
  | some _ => none

/-- Concatenated renderings of the elements of a list. -/
def encodeEach {α : Type} (enc : α → List Nat) : List α → List Nat
  | [] => []
  | a :: l => enc a ++ encodeEach enc l

/-- Modelled from the spec: JSON rendering of an array — its length, then
its elements. -/
def encodeListOf {α : Type} (enc : α → List Nat) (l : List α) : List Nat :=
  encodeNum l.length ++ encodeEach enc l

/-- Run a decoder a fixed number of times. -/
def parseCount {α : Type} (p : List Nat → Option (α × List Nat)) :
    Nat → List Nat → Option (List α × List Nat)
  | 0, bs => some ([], bs)
  | n + 1, bs =>
    match p bs with
    | none => none
    | some (a, bs1) =>
      match parseCount p n bs1 with
      | none => none
      | some (l, bs2) => some (a :: l, bs2)

/-- Decoder for `encodeListOf`. -/
def parseListOf {α : Type} (p : List Nat → Option (α × List Nat))
    (bs : List Nat) : Option (List α × List Nat) :=
  match parseNum bs with
  | none => none
  | some (n, bs1) => parseCount p n bs1

/-- Modelled from the spec: JSON rendering of a transaction input. -/
def encodeInput (i : Input) : List Nat :=
  encodeNum i.features.tag ++ encodeNum i.commit

/-- Decoder for `encodeInput`. -/
def parseInput (bs : List Nat) : Option (Input × List Nat) :=
  match parseNum bs with
  | none => none
  | some (0, bs1) =>
    match parseNum bs1 with
    | none => none
    | some (cm, bs2) => some (⟨OutputFeatures.Plain, cm⟩, bs2)
  | some (1, bs1) =>
    match parseNum bs1 with
    | none => none
    | some (cm, bs2) => some (⟨OutputFeatures.Coinbase, cm⟩, bs2)
  | some _ => none

/-- Modelled from the spec: JSON rendering of a transaction output. -/
def encodeOutput (o : Output) : List Nat :=
  encodeNum o.features.tag ++ (encodeNum o.commit ++ encodeNum o.proof)

/-- Decoder for `encodeOutput`. -/
def parseOutput (bs : List Nat) : Option (Output × List Nat) :=
  match parseNum bs with
  | none => none
  | some (0, bs1) =>
    match parseNum bs1 with
    | none => none
    | some (cm, bs2) =>
      match parseNum bs2 with
      | none => none
      | some (pf, bs3) => some (⟨OutputFeatures.Plain, cm, pf⟩, bs3)
  | some (1, bs1) =>
    match parseNum bs1 with
    | none => none
    | some (cm, bs2) =>
      match parseNum bs2 with
      | none => none
      | some (pf, bs3) => some (⟨OutputFeatures.Coinbase, cm, pf⟩, bs3)
  | some _ => none

/-- Modelled from the spec: JSON rendering of one participant-data entry. -/
def encodePd (p : ParticipantData) : List Nat :=
  encodeNum p.public_nonce ++ encodeNum p.public_blind_excess

/-- Decoder for `encodePd`. -/
def parsePd (bs : List Nat) : Option (ParticipantData × List Nat) :=
  match parseNum bs with
  | none => none
  | some (n1, bs1) =>
    match parseNum bs1 with
    | none => none
    | some (n2, bs2) => some (⟨n1, n2⟩, bs2)

/-- Modelled from the spec: JSON rendering of a slate — fee, inputs,
outputs, participant data. -/
def encodeSlate (sl : Slate) : List Nat :=
  encodeNum sl.fee ++ (encodeListOf encodeInput sl.tx.inputs ++
    (encodeListOf encodeOutput sl.tx.outputs ++
      encodeListOf encodePd sl.participant_data))

/-- Decoder for `encodeSlate`. -/
def parseSlate (bs : List Nat) : Option (Slate × List Nat) :=
  match parseNum bs with
  | none => none
  | some (fee, bs1) =>
    match parseListOf parseInput bs1 with
    | none => none
    | some (ins, bs2) =>
      match parseListOf parseOutput bs2 with
      | none => none
      | some (outs, bs3) =>
        match parseListOf parsePd bs3 with
        | none => none
        | some (pd, bs4) => some (⟨fee, ⟨ins, outs⟩, pd⟩, bs4)

/-- Modelled from the spec: JSON rendering of one multisig participant
slot. -/
def encodeMsp (p : MsParticipant) : List Nat := encodeOptNat p.partial_commitment

/-- Decoder for `encodeMsp`. -/
def parseMsp (bs : List Nat) : Option (MsParticipant × List Nat) :=
  match parseOptNat bs with
  | none => none
  | some (v, bs1) => some (⟨v⟩, bs1)

/-- Modelled from the spec: `serde_json::to_vec(swap)` — an injective byte
rendering of every field of the session record, in declaration order. -/
def encodeSwap (s : Swap) : List Nat :=
  encodeNum s.id ++ (encodeNum s.version ++ (encodeNetwork s.network ++
    (encodeRole s.role ++ (encodeBool s.seller_lock_first ++
    (encodeNum s.started ++ (encodeNum s.primary_amount ++
    (encodeNum s.secondary_amount ++
    (encodeNum s.secondary_currency.block_time_period_sec ++
    (encodeNum s.participant_id ++
    (encodeListOf encodeMsp s.multisig.participants ++
    (encodeSlate s.lock_slate ++ (encodeSlate s.refund_slate ++
    (encodeSlate s.redeem_slate ++ (encodeNum s.mwc_confirmations ++
    (encodeNum s.secondary_confirmations ++
    (encodeNum s.message_exchange_time_sec ++
      encodeNum s.redeem_time_sec))))))))))))))))

/-- Decoder for `encodeSwap` (`serde_json::from_slice`). -/
def parseSwap (bs : List Nat) : Option (Swap × List Nat) :=
  match parseNum bs with
  | none => none
  | some (id, bs1) =>
  match parseNum bs1 with
  | none => none
  | some (version, bs2) =>
  match parseNetwork bs2 with
  | none => none
  | some (network, bs3) =>
  match parseRole bs3 with
  | none => none
  | some (role, bs4) =>
  match parseBool bs4 with
  | none => none
  | some (slf, bs5) =>
  match parseNum bs5 with
  | none => none
  | some (started, bs6) =>
  match parseNum bs6 with
  | none => none
  | some (pa, bs7) =>
  match parseNum bs7 with
  | none => none
  | some (sa, bs8) =>
  match parseNum bs8 with
  | none => none
  | some (btp, bs9) =>
  match parseNum bs9 with
  | none => none
  | some (pid, bs10) =>
  match parseListOf parseMsp bs10 with
  | none => none
  | some (msp, bs11) =>
  match parseSlate bs11 with
  | none => none
  | some (ls, bs12) =>
  match parseSlate bs12 with
  | none => none
  | some (rfs, bs13) =>
  match parseSlate bs13 with
  | none => none
  | some (rds, bs14) =>
  match parseNum bs14 with
  | none => none
  | some (mc, bs15) =>
  match parseNum bs15 with
  | none => none
  | some (sc, bs16) =>
  match parseNum bs16 with
  | none => none
  | some (met, bs17) =>
  match parseNum bs17 with
  | none => none
  | some (rt, bs18) =>
    some (⟨id, version, network, role, slf, started, pa, sa, ⟨btp⟩, pid,
      ⟨msp⟩, ls, rfs, rds, mc, sc, met, rt⟩, bs18)

/-- Big-endian fixed-width byte rendering of a natural number
(`ser::Writer::write_u64` writes width 8). -/
def natToBytesBE : Nat → Nat → List Nat
  | 0, _ => []
  | w + 1, n => natToBytesBE w (n / 256) ++ [n % 256]

/-- `ser::Writer::write_bytes` (grin ser, external crate): a `u64`
big-endian length prefix followed by the bytes themselves. -/
def write_bytes (data : List Nat) : List Nat :=
  natToBytesBE 8 data.length ++ data

/-- `ser::Reader::read_bytes_len_prefix` (grin ser, external crate): read a
big-endian `u64` length, then that many bytes; fails on a short stream. -/
def read_bytes_len_prefix (stream : List Nat) : Option (List Nat × List Nat) :=
  if 8 ≤ stream.length then
    if bytesBE (stream.take 8) ≤ (stream.drop 8).length then
      some ((stream.drop 8).take (bytesBE (stream.take 8)),
        (stream.drop 8).drop (bytesBE (stream.take 8)))
    else none
  else none

/-- `impl ser::Writeable for Swap`: `write_bytes(serde_json::to_vec(s))`. -/
def Swap.write (s : Swap) : List Nat := write_bytes (encodeSwap s)

/-- `impl ser::Readable for Swap`: `read_bytes_len_prefix` then
`serde_json::from_slice` (which consumes the whole byte string). -/
def Swap.read (stream : List Nat) : Option (Swap × List Nat) :=
  match read_bytes_len_prefix stream with
  | none => none
  | some (data, rest) =>
    match parseSwap data with
    | some (s, []) => some (s, rest)
    | _ => none

/-! ## Sample sessions used by witnesses and counterexamples -/

/-- An empty slate. -/
def emptySlate : Slate :=
  { fee := 0, tx := { inputs := [], outputs := [] }, participant_data := [] }

/-- A base session with benign parameters; witnesses and counterexamples
override the fields they exercise. -/
def baseSwap : Swap :=
  { id := 1
    version := 1
    network := Network.Mainnet
    role := Role.Seller 7 0
    seller_lock_first := true
    started := 1000000
    primary_amount := 1000000000
    secondary_amount := 100000
    secondary_currency := { block_time_period_sec := 600 }
    participant_id := 0
    multisig := { participants := [{ partial_commitment := some 11 },
                                   { partial_commitment := some 13 }] }
    lock_slate := { emptySlate with fee := 7000000 }
    refund_slate := { emptySlate with fee := 7000000 }
    redeem_slate := { emptySlate with fee := 7000000 }
    mwc_confirmations := 10
    secondary_confirmations := 6
    message_exchange_time_sec := 3600
    redeem_time_sec := 1800 }

/-- A seller context whose two input values sum to `2 ^ 64`, overflowing the
`u64` fold inside `change_output`. -/
def overflowCtx : Context :=
  { multisig_key := 0
    role_context := RoleContext.SellerCtx
      { inputs := [(1, none, 2 ^ 63), (2, none, 2 ^ 63)], change_output := 5 } }

/-- A redeem slate with three participant entries. -/
def slate3 : Slate :=
  { fee := 5, tx := { inputs := [], outputs := [] },
    participant_data := [{ public_nonce := 1, public_blind_excess := 2 },
                         { public_nonce := 3, public_blind_excess := 4 },
                         { public_nonce := 5, public_blind_excess := 6 }] }

/-- A 64-byte signature whose `s` value is `2`. -/
def sigS2 : List Nat := List.replicate 63 0 ++ [2]

/-- A 64-byte signature whose `s` value is `1`. -/
def sigS1 : List Nat := List.replicate 63 0 ++ [1]

/-- A session whose message-exchange interval is zero: the first two
deadlines coincide. -/
def zeroMessageSwap : Swap := { baseSwap with message_exchange_time_sec := 0 }

/-- A session whose redeem interval and primary confirmation count are both
zero: the seller's secondary redeem window degenerates. -/
def zeroRedeemSwap : Swap :=
  { baseSwap with redeem_time_sec := 0, mwc_confirmations := 0 }

/-! ## Arithmetic helper lemmas -/

theorem W_pos : 0 < W := by norm_num [W]

theorem wadd_eq_add {a b : Nat} (h : a + b < W) : wadd a b = a + b :=
  Nat.mod_eq_of_lt h

theorem wadd_lt (a b : Nat) : wadd a b < W := Nat.mod_lt _ W_pos

theorem wsub_eq_sub {a b : Nat} (hb : b ≤ a) (ha : a < W) : wsub a b = a - b := by
  unfold wsub
  have h1 : a + W - b = W + (a - b) := by omega
  rw [h1, Nat.add_mod_left]
  exact Nat.mod_eq_of_lt (by omega)

theorem secpN_pos : 0 < secpN := by norm_num [secpN]

/-- Three chained `u64` additions agree with the mathematical sum when the
latter fits. -/
theorem wadd3_eq {x r i b : Nat} (h : x + r + i + b < W) :
    wadd (wadd (wadd x r) i) b = x + r + i + b := by
  unfold wadd
  rw [Nat.mod_eq_of_lt (show x + r < W by omega)]
  rw [Nat.mod_eq_of_lt (show x + r + i < W by omega)]
  exact Nat.mod_eq_of_lt h

/-- A fold of `u64` additions agrees with the mathematical sum of the
values as long as that sum stays below `2 ^ 64`. -/
theorem foldl_wadd_eq_sum (l : List (Nat × Option Nat × Nat)) (acc : Nat)
    (h : acc + (l.map (fun t => t.2.2)).sum < W) :
    l.foldl (fun a t => wadd a t.2.2) acc = acc + (l.map (fun t => t.2.2)).sum := by
  induction l generalizing acc with
  | nil => simp
  | cons x xs ih =>
    simp only [List.foldl_cons, List.map_cons, List.sum_cons] at h ⊢
    rw [wadd_eq_add (by omega), ih _ (by omega)]
    ring

/-- Modular difference from a modular sum decomposition: if
`a ≡ b + k (mod n)` with `a, b` reduced, then `(a + n - b) % n = k % n`. -/
theorem submod_of_addmod {a b k n : Nat} (hb : b < n)
    (h : a % n = (b + k) % n) : (a + n - b) % n = k % n := by
  have key : (a + n - b) + b ≡ k + b [MOD n] := by
    have h2 : (a + n - b) + b = a + n := by omega
    calc (a + n - b) + b = a + n := h2
    _ ≡ a [MOD n] := by
      show (a + n) % n = a % n
      rw [Nat.add_mod_right]
    _ ≡ b + k [MOD n] := h
    _ = k + b := Nat.add_comm b k
  exact key.add_right_cancel' b

/-! ## C6: refund amount -/

/-- C6: for every session satisfying the invariant
`primary_amount > refund_slate.fee` (with `primary_amount` a `u64` value),
`refund_amount` returns exactly `primary_amount - refund_slate.fee`, and
the value is strictly positive: the subtraction does not underflow. -/
theorem refund_amount_spec (s : Swap) (hw : s.primary_amount < W)
    (hinv : s.refund_slate.fee < s.primary_amount) :
    s.refund_amount = s.primary_amount - s.refund_slate.fee ∧
      0 < s.refund_amount := by
  have h1 : s.refund_amount = s.primary_amount - s.refund_slate.fee :=
    wsub_eq_sub (le_of_lt hinv) hw
  exact ⟨h1, by omega⟩

/-- Witness: `refund_amount_spec` applied to the base session. -/
theorem refund_amount_spec_witness :
    baseSwap.primary_amount < W ∧
      baseSwap.refund_slate.fee < baseSwap.primary_amount ∧
      (baseSwap.refund_amount = baseSwap.primary_amount - baseSwap.refund_slate.fee ∧
        0 < baseSwap.refund_amount) :=
  have h1 : baseSwap.primary_amount < W := by decide
  have h2 : baseSwap.refund_slate.fee < baseSwap.primary_amount := by decide
  ⟨h1, h2, refund_amount_spec baseSwap h1 h2⟩

/-! ## C10: seller change output -/

/-- C10, counterexample: on a seller context whose input values sum to
`2 ^ 64 ≥ primary_amount`, the claim demands change
`2 ^ 63 + 2 ^ 63 - primary_amount ≠ 0`, but the `u64` fold wraps to `0` and
`change_output` returns change `0`. -/
theorem change_output_overflow_cex :
    Swap.change_output (fun _ _ => 0) { baseSwap with primary_amount := 1 }
        overflowCtx = Except.ok (5, 0, 0) ∧
      ({ baseSwap with primary_amount := 1 } : Swap).primary_amount ≤ 2 ^ 63 + 2 ^ 63 ∧
      2 ^ 63 + 2 ^ 63 - ({ baseSwap with primary_amount := 1 } : Swap).primary_amount ≠ 0 := by
  refine ⟨rfl, by norm_num, by norm_num⟩

/-- C10, amended: for a seller context whose input values have mathematical
sum below `2 ^ 64`, `change_output` returns the change
`sum - primary_amount` when the inputs cover `primary_amount` and `0`
otherwise — the saturating subtraction never underflows. -/
theorem change_output_saturates (commitFn : Nat → Nat → Nat) (s : Swap)
    (ctx : Context) (sc : SellerContext) (_hrole : s.is_seller = true)
    (hsc : ctx.role_context = RoleContext.SellerCtx sc)
    (hsum : (sc.inputs.map (fun t => t.2.2)).sum < W) :
    Swap.change_output commitFn s ctx =
        Except.ok (sc.change_output,
          (sc.inputs.map (fun t => t.2.2)).sum - s.primary_amount,
          commitFn ((sc.inputs.map (fun t => t.2.2)).sum - s.primary_amount)
            sc.change_output) ∧
      (s.primary_amount < (sc.inputs.map (fun t => t.2.2)).sum →
        0 < (sc.inputs.map (fun t => t.2.2)).sum - s.primary_amount) ∧
      ((sc.inputs.map (fun t => t.2.2)).sum ≤ s.primary_amount →
        (sc.inputs.map (fun t => t.2.2)).sum - s.primary_amount = 0) := by
  refine ⟨?_, by omega, by omega⟩
  unfold Swap.change_output Context.unwrap_seller
  rw [hsc]
  show Except.ok _ = _
  rw [foldl_wadd_eq_sum sc.inputs 0 (by omega), Nat.zero_add]

/-- Witness: `change_output_saturates` on the base session with a seller
context holding two small inputs. -/
theorem change_output_saturates_witness :
    baseSwap.is_seller = true ∧
      (⟨0, RoleContext.SellerCtx ⟨[(1, none, 600000000), (2, none, 500000000)], 5⟩⟩ :
          Context).role_context =
        RoleContext.SellerCtx ⟨[(1, none, 600000000), (2, none, 500000000)], 5⟩ ∧
      ((([(1, none, 600000000), (2, none, 500000000)] :
          List (Nat × Option Nat × Nat)).map (fun t => t.2.2)).sum < W) ∧
      Swap.change_output (fun a _ => a) baseSwap
          ⟨0, RoleContext.SellerCtx ⟨[(1, none, 600000000), (2, none, 500000000)], 5⟩⟩ =
        Except.ok (5, 100000000, 100000000) :=
  have h1 : baseSwap.is_seller = true := by decide
  have h2 : (⟨0, RoleContext.SellerCtx ⟨[(1, none, 600000000), (2, none, 500000000)], 5⟩⟩ :
      Context).role_context =
      RoleContext.SellerCtx ⟨[(1, none, 600000000), (2, none, 500000000)], 5⟩ := rfl
  have h3 : ((([(1, none, 600000000), (2, none, 500000000)] :
      List (Nat × Option Nat × Nat)).map (fun t => t.2.2)).sum < W) := by decide
  ⟨h1, h2, h3,
    ((change_output_saturates (fun a _ => a) baseSwap _ _ h1 h2 h3).1).trans rfl⟩

/-! ## C9: redeem slate participant count -/

/-- C9, counterexample: on a redeem slate with three participant entries,
`redeem_tx_fields` does not reject with `InvalidState`; it happily combines
all three nonces and blind excesses into the triple. -/
theorem redeem_tx_fields_no_invalid_state_cex :
    slate3.participant_data.length = 3 ∧
      Swap.redeem_tx_fields slate3 = Except.ok (9, 12, 5) ∧
      Swap.redeem_tx_fields slate3 ≠ Except.error ErrorKind.InvalidState := by
  refine ⟨rfl, rfl, ?_⟩
  intro h
  rw [(rfl : Swap.redeem_tx_fields slate3 = Except.ok (9, 12, 5))] at h
  exact Except.noConfusion h

/-- C9, amended: `redeem_tx_fields` never validates the participant count:
on every redeem slate with at least one participant entry — two or not — it
returns the triple of the nonce sum, the blind-excess sum and the kernel
message, and its only failure is the secp error on an empty entry list,
never `InvalidState`. -/
theorem redeem_tx_fields_total_on_nonempty (sl : Slate)
    (h : sl.participant_data ≠ []) :
    Swap.redeem_tx_fields sl =
      Except.ok ((sl.participant_data.map ParticipantData.public_nonce).sum,
        (sl.participant_data.map ParticipantData.public_blind_excess).sum,
        sl.fee) := by
  cases hpd : sl.participant_data with
  | nil => exact absurd hpd h
  | cons a l =>
    simp only [Swap.redeem_tx_fields, from_combination, kernel_sig_msg, hpd,
      List.map_cons, List.sum_cons]
    rfl

/-- Witness: `redeem_tx_fields_total_on_nonempty` on the three-entry
slate. -/
theorem redeem_tx_fields_total_on_nonempty_witness :
    slate3.participant_data ≠ [] ∧
      Swap.redeem_tx_fields slate3 =
        Except.ok ((slate3.participant_data.map ParticipantData.public_nonce).sum,
          (slate3.participant_data.map ParticipantData.public_blind_excess).sum,
          slate3.fee) :=
  have h1 : slate3.participant_data ≠ [] := by simp [slate3]
  ⟨h1, redeem_tx_fields_total_on_nonempty slate3 h1⟩

/-! ## C7: signature-to-secret extraction -/

/-- C7: `signature_as_secret` reads bytes [32..64) of the 64-byte raw
signature as the scalar `s`; for an adapted pair whose published `s` equals
the adapted `s` plus `k` modulo the group order, the difference of the two
extracted scalars is `k` modulo the group order. -/
theorem signature_as_secret_adaptor_diff (sig1 sig2 : List Nat) (k s1 s2 : Nat)
    (h1 : signature_as_secret sig1 = Except.ok s1)
    (h2 : signature_as_secret sig2 = Except.ok s2)
    (hk : bytesBE (sig1.drop 32) % secpN = (bytesBE (sig2.drop 32) + k) % secpN) :
    s1 = bytesBE (sig1.drop 32) ∧ s2 = bytesBE (sig2.drop 32) ∧
      (s1 + secpN - s2) % secpN = k % secpN := by
  unfold signature_as_secret secretKey_from_slice at h1 h2
  split at h1
  case isFalse => exact absurd h1 (by simp)
  case isTrue hc1 =>
  split at h2
  case isFalse => exact absurd h2 (by simp)
  case isTrue hc2 =>
  have e1 : s1 = bytesBE (sig1.drop 32) := (Except.ok.injEq _ _).mp h1 |>.symm
  have e2 : s2 = bytesBE (sig2.drop 32) := (Except.ok.injEq _ _).mp h2 |>.symm
  refine ⟨e1, e2, ?_⟩
  rw [e1, e2]
  exact submod_of_addmod hc2.2.2 hk

/-! ## C4 / C5: the common nonce -/

/-- C4: with the two-party builder and every present partial commitment
hashing to a valid scalar, `common_nonce` fails with `MultiSigIncomplete`
exactly when fewer than two partial commitments are present, and with both
present it returns the scalar sum of the two commitment hashes modulo the
group order. -/
theorem common_nonce_complete_iff (hashScalar : Nat → Option Nat) (s : Swap)
    (p q : MsParticipant) (hparts : s.multisig.participants = [p, q])
    (hvalid : ∀ c : Nat,
      p.partial_commitment = some c ∨ q.partial_commitment = some c →
        (hashScalar c).isSome = true) :
    (s.common_nonce hashScalar = Except.error ErrorKind.MultiSigIncomplete ↔
      ¬(p.partial_commitment.isSome = true ∧ q.partial_commitment.isSome = true)) ∧
    (∀ cp cq hcp hcq, p.partial_commitment = some cp →
      q.partial_commitment = some cq → hashScalar cp = some hcp →
      hashScalar cq = some hcq →
      s.common_nonce hashScalar = Except.ok ((hcp + hcq) % secpN)) := by
  unfold Swap.common_nonce
  rw [hparts]
  cases hp : p.partial_commitment with
  | none =>
    cases hq : q.partial_commitment with
    | none =>
      constructor
      · simp [List.filterMap, hp, hq, Option.bind]
      · intro cp cq hcp hcq e1
        exact absurd e1 (by simp)
    | some cq =>
      obtain ⟨vq, hvq⟩ := Option.isSome_iff_exists.mp (hvalid cq (Or.inr hq))
      constructor
      · simp [List.filterMap, hp, hq, hvq, Option.bind]
      · intro cp _ hcp _ e1
        exact absurd e1 (by simp)
  | some cp =>
    obtain ⟨vp, hvp⟩ := Option.isSome_iff_exists.mp (hvalid cp (Or.inl hp))
    cases hq : q.partial_commitment with
    | none =>
      constructor
      · simp [List.filterMap, hp, hq, hvp, Option.bind]
      · intro _ cq _ hcq _ e2
        exact absurd e2 (by simp)
    | some cq =>
      obtain ⟨vq, hvq⟩ := Option.isSome_iff_exists.mp (hvalid cq (Or.inr hq))
      constructor
      · simp [List.filterMap, hp, hq, hvp, hvq, Option.bind]
      · intro cp2 cq2 hcp2 hcq2 e1 e2 e3 e4
        injection e1 with e1
        injection e2 with e2
        subst e1
        subst e2
        rw [hvp] at e3
        injection e3 with e3
        rw [hvq] at e4
        injection e4 with e4
        subst e3
        subst e4
        simp [List.filterMap, hp, hq, hvp, hvq, Option.bind, Nat.zero_add,
          Nat.mod_add_mod]

/-- Witness: `common_nonce_complete_iff` on the base session's builder,
whose two commitments `11`, `13` hash (here: identity) to themselves. -/
theorem common_nonce_complete_iff_witness :
    baseSwap.multisig.participants =
        [{ partial_commitment := some 11 }, { partial_commitment := some 13 }] ∧
      baseSwap.common_nonce (fun c => some c) = Except.ok ((11 + 13) % secpN) :=
  have h1 : baseSwap.multisig.participants =
      [{ partial_commitment := some 11 }, { partial_commitment := some 13 }] := rfl
  ⟨h1,
    (common_nonce_complete_iff (fun c => some c) baseSwap _ _ h1
        (fun _ _ => rfl)).2 11 13 11 13 rfl rfl rfl rfl⟩

/-- C5: the common nonce is symmetric — swapping the order of the two
participant slots of the builder (the same two partial commitments in
either order) yields the same result, so both parties derive the same
scalar. -/
theorem common_nonce_symmetric (hashScalar : Nat → Option Nat) (s : Swap)
    (p q : MsParticipant) :
    Swap.common_nonce hashScalar { s with multisig := { participants := [p, q] } } =
      Swap.common_nonce hashScalar { s with multisig := { participants := [q, p] } } := by
  unfold Swap.common_nonce
  cases hp : p.partial_commitment.bind hashScalar with
  | none =>
    cases hq : q.partial_commitment.bind hashScalar with
    | none => simp [List.filterMap, hp, hq]
    | some vq => simp [List.filterMap, hp, hq]
  | some vp =>
    cases hq : q.partial_commitment.bind hashScalar with
    | none => simp [List.filterMap, hp, hq]
    | some vq =>
      simp [List.filterMap, hp, hq, Nat.zero_add, Nat.mod_add_mod,
        Nat.add_comm vp vq]

/-- Witness: `signature_as_secret_adaptor_diff` on signatures with
`s = 2 = 1 + 1`. -/
theorem signature_as_secret_adaptor_diff_witness :
    signature_as_secret sigS2 = Except.ok 2 ∧
      signature_as_secret sigS1 = Except.ok 1 ∧
      bytesBE (sigS2.drop 32) % secpN = (bytesBE (sigS1.drop 32) + 1) % secpN ∧
      (2 = bytesBE (sigS2.drop 32) ∧ 1 = bytesBE (sigS1.drop 32) ∧
        (2 + secpN - 1) % secpN = 1 % secpN) :=
  have h1 : signature_as_secret sigS2 = Except.ok 2 := rfl
  have h2 : signature_as_secret sigS1 = Except.ok 1 := rfl
  have hk : bytesBE (sigS2.drop 32) % secpN = (bytesBE (sigS1.drop 32) + 1) % secpN := rfl
  ⟨h1, h2, hk, signature_as_secret_adaptor_diff sigS2 sigS1 1 2 1 h1 h2 hk⟩

/-! ## C3: canonical insertion -/

/-- A successful probe of the binary-search loop lands on an index holding
the key, whatever the bounds. -/
theorem bsAux_ok {α : Type} [LinearOrder α] {l : List α} {x : α} :
    ∀ n left right i, right - left ≤ n → right ≤ l.length →
      bsAux l x left right = Except.ok i →
      ∃ hi : i < l.length, l.get ⟨i, hi⟩ = x := by
  intro n
  induction n with
  | zero =>
    intro left right i hn hr h
    rw [bsAux, dif_neg (by omega)] at h
    exact absurd h (by simp)
  | succ n ih =>
    intro left right i hn hr h
    rw [bsAux] at h
    by_cases hlr : left < right
    · rw [dif_pos hlr] at h
      cases hcmp : compare (l.getD (left + (right - left) / 2) x) x with
      | lt =>
        rw [hcmp] at h
        exact ih (left + (right - left) / 2 + 1) right i (by omega) hr h
      | gt =>
        rw [hcmp] at h
        exact ih left (left + (right - left) / 2) i (by omega) (by omega) h
      | eq =>
        rw [hcmp] at h
        injection h with h
        subst h
        have hmid : left + (right - left) / 2 < l.length := by omega
        refine ⟨hmid, ?_⟩
        rw [List.get_eq_getElem, ← List.getD_eq_getElem l x hmid]
        exact compare_eq_iff_eq.mp hcmp
    · rw [dif_neg hlr] at h
      exact absurd h (by simp)

/-- A failed probe of the binary-search loop, run on a sorted segment with
everything left of `left` below the key and everything from `right` on
above it, reports the exact boundary between the elements below and above
the key. -/
theorem bsAux_err {α : Type} [LinearOrder α] {l : List α} {x : α}
    (hs : l.Sorted (· ≤ ·)) :
    ∀ n left right e, right - left ≤ n → left ≤ right → right ≤ l.length →
      (∀ j (hj : j < l.length), j < left → l.get ⟨j, hj⟩ < x) →
      (∀ j (hj : j < l.length), right ≤ j → x < l.get ⟨j, hj⟩) →
      bsAux l x left right = Except.error e →
      e ≤ l.length ∧
      (∀ j (hj : j < l.length), j < e → l.get ⟨j, hj⟩ < x) ∧
      (∀ j (hj : j < l.length), e ≤ j → x < l.get ⟨j, hj⟩) := by
  intro n
  induction n with
  | zero =>
    intro left right e hn hlr2 hr hinvL hinvR h
    rw [bsAux, dif_neg (by omega)] at h
    injection h with h
    subst h
    exact ⟨by omega, hinvL, fun j hj hle => hinvR j hj (by omega)⟩
  | succ n ih =>
    intro left right e hn hlr2 hr hinvL hinvR h
    rw [bsAux] at h
    by_cases hlr : left < right
    · rw [dif_pos hlr] at h
      have hmid : left + (right - left) / 2 < l.length := by omega
      cases hcmp : compare (l.getD (left + (right - left) / 2) x) x with
      | lt =>
        rw [hcmp] at h
        have hmidlt : l.get ⟨left + (right - left) / 2, hmid⟩ < x := by
          rw [List.get_eq_getElem, ← List.getD_eq_getElem l x hmid]
          exact compare_lt_iff_lt.mp hcmp
        refine ih (left + (right - left) / 2 + 1) right e (by omega) (by omega) hr
          ?_ hinvR h
        intro j hj hjlt
        have hle : l.get ⟨j, hj⟩ ≤ l.get ⟨left + (right - left) / 2, hmid⟩ :=
          hs.rel_get_of_le (by simp [Fin.le_def]; omega)
        exact lt_of_le_of_lt hle hmidlt
      | gt =>
        rw [hcmp] at h
        have hmidgt : x < l.get ⟨left + (right - left) / 2, hmid⟩ := by
          rw [List.get_eq_getElem, ← List.getD_eq_getElem l x hmid]
          exact compare_gt_iff_gt.mp hcmp
        refine ih left (left + (right - left) / 2) e (by omega) (by omega) (by omega)
          hinvL ?_ h
        intro j hj hjge
        have hle : l.get ⟨left + (right - left) / 2, hmid⟩ ≤ l.get ⟨j, hj⟩ :=
          hs.rel_get_of_le (by simp [Fin.le_def]; omega)
        exact lt_of_lt_of_le hmidgt hle
      | eq =>
        rw [hcmp] at h
        exact absurd h (by simp)
    · rw [dif_neg hlr] at h
      injection h with h
      subst h
      exact ⟨by omega, hinvL, fun j hj hle => hinvR j hj (by omega)⟩

/-- On a sorted list, a failed `binary_search` reports the position
splitting the list into the part strictly below and strictly above the key
(so in particular the key is absent). -/
theorem binary_search_err {α : Type} [LinearOrder α] {l : List α} {x : α}
    {e : Nat} (hs : l.Sorted (· ≤ ·)) (h : binary_search l x = Except.error e) :
    e ≤ l.length ∧
    (∀ j (hj : j < l.length), j < e → l.get ⟨j, hj⟩ < x) ∧
    (∀ j (hj : j < l.length), e ≤ j → x < l.get ⟨j, hj⟩) :=
  bsAux_err hs l.length 0 l.length e (by omega) (by omega) le_rfl
    (fun j hj hjlt => absurd hjlt (by omega))
    (fun j hj hjge => absurd hj (by omega)) h

/-- On a sorted list that contains the key, `binary_search` succeeds. -/
theorem binary_search_ok_of_mem {α : Type} [LinearOrder α] {l : List α} {x : α}
    (hs : l.Sorted (· ≤ ·)) (hx : x ∈ l) :
    ∃ i, binary_search l x = Except.ok i := by
  cases hres : binary_search l x with
  | ok i => exact ⟨i, rfl⟩
  | error e =>
    obtain ⟨-, hlt, hgt⟩ := binary_search_err hs hres
    obtain ⟨⟨j, hj⟩, hget⟩ := List.mem_iff_get.mp hx
    rcases lt_or_le j e with hje | hje
    · exact absurd (hget ▸ hlt j hj hje) (lt_irrefl x)
    · exact absurd (hget ▸ hgt j hj hje) (lt_irrefl x)

/-- Inserting a key at the boundary between the elements strictly below it
and strictly above it keeps the list sorted. -/
theorem sorted_insertIdx {α : Type} [LinearOrder α] :
    ∀ (e : Nat) (l : List α) (x : α), l.Sorted (· ≤ ·) → e ≤ l.length →
      (∀ j (hj : j < l.length), j < e → l.get ⟨j, hj⟩ < x) →
      (∀ j (hj : j < l.length), e ≤ j → x < l.get ⟨j, hj⟩) →
      (l.insertIdx e x).Sorted (· ≤ ·) := by
  intro e
  induction e with
  | zero =>
    intro l x hs he hlt hgt
    rw [List.insertIdx_zero, List.sorted_cons]
    refine ⟨?_, hs⟩
    intro b hb
    obtain ⟨⟨j, hj⟩, hget⟩ := List.mem_iff_get.mp hb
    exact le_of_lt (hget ▸ hgt j hj (by omega))
  | succ e ih =>
    intro l x hs he hlt hgt
    cases l with
    | nil => simp at he
    | cons a l2 =>
      rw [List.insertIdx_succ_cons, List.sorted_cons]
      rw [List.sorted_cons] at hs
      constructor
      · intro b hb
        rw [List.mem_insertIdx (by simpa using he)] at hb
        cases hb with
        | inl hb =>
          subst hb
          exact le_of_lt (hlt 0 (by simp) (by omega))
        | inr hb => exact hs.1 b hb
      · refine ih l2 x hs.2 (by simpa using he) ?_ ?_
        · intro j hj hje
          have := hlt (j + 1) (by simpa using hj) (by omega)
          rwa [List.get_cons_succ] at this
        · intro j hj hje
          have := hgt (j + 1) (by simpa using hj) (by omega)
          rwa [List.get_cons_succ] at this

/-- Canonical insertion of a key already present in a sorted list changes
nothing. -/
theorem insert_canonical_mem {α : Type} [LinearOrder α] {l : List α} {x : α}
    (hs : l.Sorted (· ≤ ·)) (hx : x ∈ l) : insert_canonical l x = l := by
  obtain ⟨i, hi⟩ := binary_search_ok_of_mem hs hx
  unfold insert_canonical
  rw [hi]

/-- Canonical insertion of an absent key into a sorted list inserts it at
the binary-search position, keeps the list sorted, and makes it a member. -/
theorem insert_canonical_not_mem {α : Type} [LinearOrder α] {l : List α}
    {x : α} (hs : l.Sorted (· ≤ ·)) (hx : x ∉ l) :
    ∃ e, binary_search l x = Except.error e ∧
      insert_canonical l x = l.insertIdx e x ∧
      (insert_canonical l x).Sorted (· ≤ ·) ∧
      x ∈ insert_canonical l x := by
  cases hres : binary_search l x with
  | ok i =>
    obtain ⟨hi, hget⟩ := bsAux_ok l.length 0 l.length i (by omega) le_rfl hres
    exact absurd (hget ▸ List.get_mem l i hi) hx
  | error e =>
    obtain ⟨he, hlt, hgt⟩ := binary_search_err hs hres
    have heq : insert_canonical l x = l.insertIdx e x := by
      unfold insert_canonical
      rw [hres]
    refine ⟨e, rfl, heq, ?_, ?_⟩
    · rw [heq]
      exact sorted_insertIdx e l x hs he hlt hgt
    · rw [heq, List.mem_insertIdx he]
      exact Or.inl rfl

/-- Canonical insertion into a sorted list is idempotent. -/
theorem insert_canonical_idem {α : Type} [LinearOrder α] {l : List α} {x : α}
    (hs : l.Sorted (· ≤ ·)) :
    insert_canonical (insert_canonical l x) x = insert_canonical l x := by
  by_cases hx : x ∈ l
  · rw [insert_canonical_mem hs hx, insert_canonical_mem hs hx]
  · obtain ⟨e, -, -, hsorted, hmem⟩ := insert_canonical_not_mem hs hx
    exact insert_canonical_mem hsorted hmem

/-- C3: on a slate whose input (resp. output) list is sorted in the natural
ordering, `tx_add_input` (resp. `tx_add_output`) is idempotent; when an
entry with the same key is already present the slate is left unchanged, and
an absent key is inserted as a `Plain`-feature entry at the binary-search
position, keeping the list sorted. -/
theorem tx_insertion_canonical (slate : Slate) (c pr : Nat)
    (hin : slate.tx.inputs.Sorted (· ≤ ·))
    (hout : slate.tx.outputs.Sorted (· ≤ ·)) :
    tx_add_input (tx_add_input slate c) c = tx_add_input slate c ∧
    ((⟨OutputFeatures.Plain, c⟩ : Input) ∈ slate.tx.inputs →
      tx_add_input slate c = slate) ∧
    ((⟨OutputFeatures.Plain, c⟩ : Input) ∉ slate.tx.inputs →
      ∃ e, binary_search slate.tx.inputs (⟨OutputFeatures.Plain, c⟩ : Input) =
          Except.error e ∧
        (tx_add_input slate c).tx.inputs =
          slate.tx.inputs.insertIdx e ⟨OutputFeatures.Plain, c⟩ ∧
        (tx_add_input slate c).tx.inputs.Sorted (· ≤ ·)) ∧
    tx_add_output (tx_add_output slate c pr) c pr = tx_add_output slate c pr ∧
    ((⟨OutputFeatures.Plain, c, pr⟩ : Output) ∈ slate.tx.outputs →
      tx_add_output slate c pr = slate) ∧
    ((⟨OutputFeatures.Plain, c, pr⟩ : Output) ∉ slate.tx.outputs →
      ∃ e, binary_search slate.tx.outputs (⟨OutputFeatures.Plain, c, pr⟩ : Output) =
          Except.error e ∧
        (tx_add_output slate c pr).tx.outputs =
          slate.tx.outputs.insertIdx e ⟨OutputFeatures.Plain, c, pr⟩ ∧
        (tx_add_output slate c pr).tx.outputs.Sorted (· ≤ ·)) := by
  refine ⟨?_, ?_, ?_, ?_, ?_, ?_⟩
  · have hidem := insert_canonical_idem (x := (⟨OutputFeatures.Plain, c⟩ : Input)) hin
    simp [tx_add_input, hidem]
  · intro hmem
    have h := insert_canonical_mem hin hmem
    simp [tx_add_input, h]
  · intro hmem
    obtain ⟨e, hbs, heq, hsorted, -⟩ := insert_canonical_not_mem hin hmem
    exact ⟨e, hbs, heq, hsorted⟩
  · have hidem := insert_canonical_idem (x := (⟨OutputFeatures.Plain, c, pr⟩ : Output)) hout
    simp [tx_add_output, hidem]
  · intro hmem
    have h := insert_canonical_mem hout hmem
    simp [tx_add_output, h]
  · intro hmem
    obtain ⟨e, hbs, heq, hsorted, -⟩ := insert_canonical_not_mem hout hmem
    exact ⟨e, hbs, heq, hsorted⟩

/-- Witness: `tx_insertion_canonical` on the empty slate (whose input and
output lists are trivially sorted), checking idempotence of inserting
commitment 5 (and proof 9 on the output side). -/
theorem tx_insertion_canonical_witness :
    (emptySlate.tx.inputs.Sorted (· ≤ ·)) ∧
      (emptySlate.tx.outputs.Sorted (· ≤ ·)) ∧
      tx_add_input (tx_add_input emptySlate 5) 5 = tx_add_input emptySlate 5 ∧
      tx_add_output (tx_add_output emptySlate 5 9) 5 9 =
        tx_add_output emptySlate 5 9 :=
  have h1 : emptySlate.tx.inputs.Sorted (· ≤ ·) := List.sorted_nil
  have h2 : emptySlate.tx.outputs.Sorted (· ≤ ·) := List.sorted_nil
  ⟨h1, h2, (tx_insertion_canonical emptySlate 5 9 h1 h2).1,
    (tx_insertion_canonical emptySlate 5 9 h1 h2).2.2.2.1⟩

/-! ## C1 / C2: the time schedule -/

/-- When the whole schedule fits in a `u64` (the stated sum is the largest
deadline, `get_time_btc_lock`, computed without wrapping), every deadline
equals its pure arithmetic value. -/
theorem time_schedule_eq (s : Swap)
    (hT : s.started + s.message_exchange_time_sec +
        max s.get_timeinterval_mwc_lock s.get_timeinterval_btc_lock +
        s.message_exchange_time_sec + s.redeem_time_sec +
        s.get_timeinterval_mwc_lock + s.redeem_time_sec + s.redeem_time_sec +
        s.get_timeinterval_mwc_lock + s.get_timeinterval_btc_lock < W) :
    s.get_time_message_offers = s.started + s.message_exchange_time_sec ∧
    s.get_time_start_lock = s.started + s.message_exchange_time_sec +
      max s.get_timeinterval_mwc_lock s.get_timeinterval_btc_lock / 20 ∧
    s.get_time_locking = s.started + s.message_exchange_time_sec +
      max s.get_timeinterval_mwc_lock s.get_timeinterval_btc_lock ∧
    s.get_time_message_redeem = s.started + s.message_exchange_time_sec +
      max s.get_timeinterval_mwc_lock s.get_timeinterval_btc_lock +
      s.message_exchange_time_sec ∧
    s.get_time_mwc_redeem = s.started + s.message_exchange_time_sec +
      max s.get_timeinterval_mwc_lock s.get_timeinterval_btc_lock +
      s.message_exchange_time_sec + s.redeem_time_sec ∧
    s.get_time_mwc_lock = s.started + s.message_exchange_time_sec +
      max s.get_timeinterval_mwc_lock s.get_timeinterval_btc_lock +
      s.message_exchange_time_sec + s.redeem_time_sec +
      s.get_timeinterval_mwc_lock ∧
    s.get_time_mwc_refund = s.started + s.message_exchange_time_sec +
      max s.get_timeinterval_mwc_lock s.get_timeinterval_btc_lock +
      s.message_exchange_time_sec + s.redeem_time_sec +
      s.get_timeinterval_mwc_lock + s.redeem_time_sec ∧
    s.get_time_btc_lock = s.started + s.message_exchange_time_sec +
      max s.get_timeinterval_mwc_lock s.get_timeinterval_btc_lock +
      s.message_exchange_time_sec + s.redeem_time_sec +
      s.get_timeinterval_mwc_lock + s.redeem_time_sec + s.redeem_time_sec +
      s.get_timeinterval_mwc_lock + s.get_timeinterval_btc_lock ∧
    s.get_time_btc_redeem_limit = s.started + s.message_exchange_time_sec +
      max s.get_timeinterval_mwc_lock s.get_timeinterval_btc_lock +
      s.message_exchange_time_sec + s.redeem_time_sec +
      s.get_timeinterval_mwc_lock + s.redeem_time_sec + s.redeem_time_sec +
      s.get_timeinterval_mwc_lock := by
  have hdiv : max s.get_timeinterval_mwc_lock s.get_timeinterval_btc_lock / 20 ≤
      max s.get_timeinterval_mwc_lock s.get_timeinterval_btc_lock :=
    Nat.div_le_self _ _
  have e1 : s.get_time_message_offers = s.started + s.message_exchange_time_sec := by
    unfold Swap.get_time_message_offers Swap.get_time_start
    exact wadd_eq_add (by omega)
  have e2 : s.get_time_start_lock = s.started + s.message_exchange_time_sec +
      max s.get_timeinterval_mwc_lock s.get_timeinterval_btc_lock / 20 := by
    unfold Swap.get_time_start_lock
    rw [e1]
    exact wadd_eq_add (by omega)
  have e3 : s.get_time_locking = s.started + s.message_exchange_time_sec +
      max s.get_timeinterval_mwc_lock s.get_timeinterval_btc_lock := by
    unfold Swap.get_time_locking
    rw [e1]
    exact wadd_eq_add (by omega)
  have e4 : s.get_time_message_redeem = s.started + s.message_exchange_time_sec +
      max s.get_timeinterval_mwc_lock s.get_timeinterval_btc_lock +
      s.message_exchange_time_sec := by
    unfold Swap.get_time_message_redeem
    rw [e3]
    exact wadd_eq_add (by omega)
  have e5 : s.get_time_mwc_redeem = s.started + s.message_exchange_time_sec +
      max s.get_timeinterval_mwc_lock s.get_timeinterval_btc_lock +
      s.message_exchange_time_sec + s.redeem_time_sec := by
    unfold Swap.get_time_mwc_redeem
    rw [e4]
    exact wadd_eq_add (by omega)
  have e6 : s.get_time_mwc_lock = s.started + s.message_exchange_time_sec +
      max s.get_timeinterval_mwc_lock s.get_timeinterval_btc_lock +
      s.message_exchange_time_sec + s.redeem_time_sec +
      s.get_timeinterval_mwc_lock := by
    unfold Swap.get_time_mwc_lock
    rw [e5]
    exact wadd_eq_add (by omega)
  have e7 : s.get_time_mwc_refund = s.started + s.message_exchange_time_sec +
      max s.get_timeinterval_mwc_lock s.get_timeinterval_btc_lock +
      s.message_exchange_time_sec + s.redeem_time_sec +
      s.get_timeinterval_mwc_lock + s.redeem_time_sec := by
    unfold Swap.get_time_mwc_refund
    rw [e6]
    exact wadd_eq_add (by omega)
  have e8 : s.get_time_btc_lock = s.started + s.message_exchange_time_sec +
      max s.get_timeinterval_mwc_lock s.get_timeinterval_btc_lock +
      s.message_exchange_time_sec + s.redeem_time_sec +
      s.get_timeinterval_mwc_lock + s.redeem_time_sec + s.redeem_time_sec +
      s.get_timeinterval_mwc_lock + s.get_timeinterval_btc_lock := by
    unfold Swap.get_time_btc_lock
    rw [e7]
    exact wadd3_eq (by omega)
  have e9 : s.get_time_btc_redeem_limit = s.started + s.message_exchange_time_sec +
      max s.get_timeinterval_mwc_lock s.get_timeinterval_btc_lock +
      s.message_exchange_time_sec + s.redeem_time_sec +
      s.get_timeinterval_mwc_lock + s.redeem_time_sec + s.redeem_time_sec +
      s.get_timeinterval_mwc_lock := by
    unfold Swap.get_time_btc_redeem_limit
    rw [e8, wsub_eq_sub (by omega) (by omega)]
    omega
  exact ⟨e1, e2, e3, e4, e5, e6, e7, e8, e9⟩

/-- C1, counterexample: a session with `message_exchange_time_sec = 0` has
`get_time_start = get_time_message_offers`, so the schedule is not strictly
increasing for every session. -/
theorem time_schedule_not_strict_of_zero_message_time :
    ¬(zeroMessageSwap.get_time_start < zeroMessageSwap.get_time_message_offers ∧
      zeroMessageSwap.get_time_message_offers < zeroMessageSwap.get_time_start_lock ∧
      zeroMessageSwap.get_time_start_lock < zeroMessageSwap.get_time_locking ∧
      zeroMessageSwap.get_time_locking < zeroMessageSwap.get_time_message_redeem ∧
      zeroMessageSwap.get_time_message_redeem < zeroMessageSwap.get_time_mwc_redeem ∧
      zeroMessageSwap.get_time_mwc_redeem < zeroMessageSwap.get_time_mwc_refund ∧
      zeroMessageSwap.get_time_mwc_refund < zeroMessageSwap.get_time_btc_lock) := by
  intro h
  have h1 : zeroMessageSwap.get_time_start = 1000000 := rfl
  have h2 : zeroMessageSwap.get_time_message_offers = 1000000 := rfl
  omega

/-- C1, amended: for every session with a positive message-exchange
interval, a positive redeem interval, a largest lock interval of at least
20 seconds (so the 5% posting slack is nonzero), and a schedule fitting in
`u64` without wrapping, the derived schedule is strictly increasing:
`t_start < t_offers < t_start_lock < t_locked < t_msg_redeem <
t_mwc_redeem < t_mwc_refund < t_btc_lock_expire`. -/
theorem time_schedule_strict_mono (s : Swap)
    (hM : 0 < s.message_exchange_time_sec) (hR : 0 < s.redeem_time_sec)
    (hI : 20 ≤ max s.get_timeinterval_mwc_lock s.get_timeinterval_btc_lock)
    (hT : s.started + s.message_exchange_time_sec +
        max s.get_timeinterval_mwc_lock s.get_timeinterval_btc_lock +
        s.message_exchange_time_sec + s.redeem_time_sec +
        s.get_timeinterval_mwc_lock + s.redeem_time_sec + s.redeem_time_sec +
        s.get_timeinterval_mwc_lock + s.get_timeinterval_btc_lock < W) :
    s.get_time_start < s.get_time_message_offers ∧
      s.get_time_message_offers < s.get_time_start_lock ∧
      s.get_time_start_lock < s.get_time_locking ∧
      s.get_time_locking < s.get_time_message_redeem ∧
      s.get_time_message_redeem < s.get_time_mwc_redeem ∧
      s.get_time_mwc_redeem < s.get_time_mwc_refund ∧
      s.get_time_mwc_refund < s.get_time_btc_lock := by
  obtain ⟨e1, e2, e3, e4, e5, e6, e7, e8, e9⟩ := time_schedule_eq s hT
  have hstart : s.get_time_start = s.started := rfl
  have hd1 : 0 < max s.get_timeinterval_mwc_lock s.get_timeinterval_btc_lock / 20 :=
    Nat.div_pos hI (by norm_num)
  have hd2 : max s.get_timeinterval_mwc_lock s.get_timeinterval_btc_lock / 20 <
      max s.get_timeinterval_mwc_lock s.get_timeinterval_btc_lock :=
    Nat.div_lt_self (by omega) (by norm_num)
  rw [hstart, e1, e2, e3, e4, e5, e7, e8]
  omega

/-- Witness: `time_schedule_strict_mono` at the base session
(M = 3600, R = 1800, intervals 660 and 3960). -/
theorem time_schedule_strict_mono_witness :
    0 < baseSwap.message_exchange_time_sec ∧ 0 < baseSwap.redeem_time_sec ∧
      20 ≤ max baseSwap.get_timeinterval_mwc_lock baseSwap.get_timeinterval_btc_lock ∧
      baseSwap.started + baseSwap.message_exchange_time_sec +
        max baseSwap.get_timeinterval_mwc_lock baseSwap.get_timeinterval_btc_lock +
        baseSwap.message_exchange_time_sec + baseSwap.redeem_time_sec +
        baseSwap.get_timeinterval_mwc_lock + baseSwap.redeem_time_sec +
        baseSwap.redeem_time_sec + baseSwap.get_timeinterval_mwc_lock +
        baseSwap.get_timeinterval_btc_lock < W ∧
      (baseSwap.get_time_start < baseSwap.get_time_message_offers ∧
        baseSwap.get_time_message_offers < baseSwap.get_time_start_lock ∧
        baseSwap.get_time_start_lock < baseSwap.get_time_locking ∧
        baseSwap.get_time_locking < baseSwap.get_time_message_redeem ∧
        baseSwap.get_time_message_redeem < baseSwap.get_time_mwc_redeem ∧
        baseSwap.get_time_mwc_redeem < baseSwap.get_time_mwc_refund ∧
        baseSwap.get_time_mwc_refund < baseSwap.get_time_btc_lock) :=
  have hM : 0 < baseSwap.message_exchange_time_sec := by decide
  have hR : 0 < baseSwap.redeem_time_sec := by decide
  have hI : 20 ≤ max baseSwap.get_timeinterval_mwc_lock
      baseSwap.get_timeinterval_btc_lock := by decide
  have hT : baseSwap.started + baseSwap.message_exchange_time_sec +
      max baseSwap.get_timeinterval_mwc_lock baseSwap.get_timeinterval_btc_lock +
      baseSwap.message_exchange_time_sec + baseSwap.redeem_time_sec +
      baseSwap.get_timeinterval_mwc_lock + baseSwap.redeem_time_sec +
      baseSwap.redeem_time_sec + baseSwap.get_timeinterval_mwc_lock +
      baseSwap.get_timeinterval_btc_lock < W := by decide
  ⟨hM, hR, hI, hT, time_schedule_strict_mono baseSwap hM hR hI hT⟩

/-- C2, counterexample: with `redeem_time_sec = 0` and
`mwc_confirmations = 0`, `get_time_btc_redeem_limit` equals
`get_time_mwc_refund`, so it is not strictly greater for every session. -/
theorem btc_redeem_limit_not_gt_mwc_refund_cex :
    ¬(zeroRedeemSwap.get_time_mwc_refund < zeroRedeemSwap.get_time_btc_redeem_limit) := by
  intro h
  have h1 : zeroRedeemSwap.get_time_mwc_refund = 1011160 := rfl
  have h2 : zeroRedeemSwap.get_time_btc_redeem_limit = 1011160 := rfl
  omega

/-- C2, amended: for every session with a positive redeem interval whose
schedule fits in `u64` without wrapping,
`get_time_btc_redeem_limit > get_time_mwc_refund`: the seller keeps a
window of `redeem_time_sec + get_timeinterval_mwc_lock` to redeem the
secondary chain before the buyer can refund it. -/
theorem btc_redeem_limit_gt_mwc_refund (s : Swap) (hR : 0 < s.redeem_time_sec)
    (hT : s.started + s.message_exchange_time_sec +
        max s.get_timeinterval_mwc_lock s.get_timeinterval_btc_lock +
        s.message_exchange_time_sec + s.redeem_time_sec +
        s.get_timeinterval_mwc_lock + s.redeem_time_sec + s.redeem_time_sec +
        s.get_timeinterval_mwc_lock + s.get_timeinterval_btc_lock < W) :
    s.get_time_mwc_refund < s.get_time_btc_redeem_limit := by
  obtain ⟨e1, e2, e3, e4, e5, e6, e7, e8, e9⟩ := time_schedule_eq s hT
  rw [e7, e9]
  omega

/-- Witness: `btc_redeem_limit_gt_mwc_refund` at the base session. -/
theorem btc_redeem_limit_gt_mwc_refund_witness :
    0 < baseSwap.redeem_time_sec ∧
      baseSwap.started + baseSwap.message_exchange_time_sec +
        max baseSwap.get_timeinterval_mwc_lock baseSwap.get_timeinterval_btc_lock +
        baseSwap.message_exchange_time_sec + baseSwap.redeem_time_sec +
        baseSwap.get_timeinterval_mwc_lock + baseSwap.redeem_time_sec +
        baseSwap.redeem_time_sec + baseSwap.get_timeinterval_mwc_lock +
        baseSwap.get_timeinterval_btc_lock < W ∧
      baseSwap.get_time_mwc_refund < baseSwap.get_time_btc_redeem_limit :=
  have hR : 0 < baseSwap.redeem_time_sec := by decide
  have hT : baseSwap.started + baseSwap.message_exchange_time_sec +
      max baseSwap.get_timeinterval_mwc_lock baseSwap.get_timeinterval_btc_lock +
      baseSwap.message_exchange_time_sec + baseSwap.redeem_time_sec +
      baseSwap.get_timeinterval_mwc_lock + baseSwap.redeem_time_sec +
      baseSwap.redeem_time_sec + baseSwap.get_timeinterval_mwc_lock +
      baseSwap.get_timeinterval_btc_lock < W := by decide
  ⟨hR, hT, btc_redeem_limit_gt_mwc_refund baseSwap hR hT⟩

/-! ## C8 round-trip lemmas -/

theorem fromDigitsLE_natDigitsLEAux : ∀ fuel n, n ≤ fuel →
    fromDigitsLE (natDigitsLEAux fuel n) = n := by
  intro fuel
  induction fuel with
  | zero =>
    intro n hn
    interval_cases n
    rfl
  | succ fuel ih =>
    intro n hn
    cases n with
    | zero => rfl
    | succ m =>
      rw [natDigitsLEAux]
      show (m + 1) % 10 + 10 * fromDigitsLE (natDigitsLEAux fuel ((m + 1) / 10)) = m + 1
      rw [ih ((m + 1) / 10) (by omega)]
      omega

theorem fromDigitsLE_natDigitsLE (n : Nat) : fromDigitsLE (natDigitsLE n) = n :=
  fromDigitsLE_natDigitsLEAux n n le_rfl

theorem natDigitsLEAux_lt : ∀ fuel n, ∀ d ∈ natDigitsLEAux fuel n, d < 10 := by
  intro fuel
  induction fuel with
  | zero =>
    intro n d hd
    cases n <;> simp [natDigitsLEAux] at hd
  | succ fuel ih =>
    intro n d hd
    cases n with
    | zero => simp [natDigitsLEAux] at hd
    | succ m =>
      rw [natDigitsLEAux] at hd
      rcases List.mem_cons.mp hd with h | h
      · subst h; omega
      · exact ih ((m + 1) / 10) d h

theorem natDigitsLE_lt (n : Nat) : ∀ d ∈ natDigitsLE n, d < 10 :=
  natDigitsLEAux_lt n n

theorem parseNum_encodeNum (n : Nat) (rest : List Nat) :
    parseNum (encodeNum n ++ rest) = some (n, rest) := by
  have key : ∀ (ds : List Nat), (∀ d ∈ ds, d < 10) → ∀ r,
      parseNum (ds.map (fun d => d + 48) ++ (44 :: r)) =
        some (fromDigitsLE ds, r) := by
    intro ds
    induction ds with
    | nil =>
      intro h r
      simp [parseNum, fromDigitsLE]
    | cons d ds ih =>
      intro h r
      have hd : d < 10 := h d (by simp)
      simp only [List.map_cons, List.cons_append, parseNum]
      rw [if_neg (by omega), if_pos (⟨by omega, by omega⟩ :
        48 ≤ d + 48 ∧ d + 48 < 58)]
      rw [List.append_eq, ih (fun x hx => h x (by simp [hx])) r]
      show some (d + 48 - 48 + 10 * fromDigitsLE ds, r) = _
      have he : d + 48 - 48 = d := by omega
      rw [he]
      rfl
  have h2 := key (natDigitsLE n) (natDigitsLE_lt n) rest
  rw [fromDigitsLE_natDigitsLE] at h2
  rw [encodeNum, List.append_assoc, List.singleton_append]
  exact h2

theorem parseRole_encodeRole (r : Role) (rest : List Nat) :
    parseRole (encodeRole r ++ rest) = some (r, rest) := by
  cases r with
  | Seller a ch =>
    simp [parseRole, encodeRole, List.append_assoc, parseNum_encodeNum]
  | Buyer => simp [parseRole, encodeRole, parseNum_encodeNum]

theorem parseBool_encodeBool (b : Bool) (rest : List Nat) :
    parseBool (encodeBool b ++ rest) = some (b, rest) := by
  cases b <;> simp [parseBool, encodeBool, parseNum_encodeNum]

theorem parseNetwork_encodeNetwork (n : Network) (rest : List Nat) :
    parseNetwork (encodeNetwork n ++ rest) = some (n, rest) := by
  cases n <;> simp [parseNetwork, encodeNetwork, parseNum_encodeNum]

theorem parseOptNat_encodeOptNat (v : Option Nat) (rest : List Nat) :
    parseOptNat (encodeOptNat v ++ rest) = some (v, rest) := by
  cases v with
  | none => simp [parseOptNat, encodeOptNat, parseNum_encodeNum]
  | some x =>
    simp [parseOptNat, encodeOptNat, List.append_assoc, parseNum_encodeNum]

theorem parseCount_encodeEach {α : Type}
    (p : List Nat → Option (α × List Nat)) (enc : α → List Nat)
    (hp : ∀ a rest, p (enc a ++ rest) = some (a, rest)) :
    ∀ (l : List α) (rest : List Nat),
      parseCount p l.length (encodeEach enc l ++ rest) = some (l, rest) := by
  intro l
  induction l with
  | nil => intro rest; simp [parseCount, encodeEach]
  | cons a l ih =>
    intro rest
    simp only [encodeEach, List.append_assoc, List.length_cons, parseCount]
    rw [hp a _]
    simp [ih rest]

theorem parseListOf_encodeListOf {α : Type}
    (p : List Nat → Option (α × List Nat)) (enc : α → List Nat)
    (hp : ∀ a rest, p (enc a ++ rest) = some (a, rest))
    (l : List α) (rest : List Nat) :
    parseListOf p (encodeListOf enc l ++ rest) = some (l, rest) := by
  simp only [parseListOf, encodeListOf, List.append_assoc, parseNum_encodeNum]
  exact parseCount_encodeEach p enc hp l rest

theorem parseInput_encodeInput (i : Input) (rest : List Nat) :
    parseInput (encodeInput i ++ rest) = some (i, rest) := by
  obtain ⟨f, cm⟩ := i
  cases f <;>
    simp [parseInput, encodeInput, OutputFeatures.tag, List.append_assoc,
      parseNum_encodeNum]

theorem parseOutput_encodeOutput (o : Output) (rest : List Nat) :
    parseOutput (encodeOutput o ++ rest) = some (o, rest) := by
  obtain ⟨f, cm, pf⟩ := o
  cases f <;>
    simp [parseOutput, encodeOutput, OutputFeatures.tag, List.append_assoc,
      parseNum_encodeNum]

theorem parsePd_encodePd (p : ParticipantData) (rest : List Nat) :
    parsePd (encodePd p ++ rest) = some (p, rest) := by
  obtain ⟨n1, n2⟩ := p
  simp [parsePd, encodePd, List.append_assoc, parseNum_encodeNum]

theorem parseMsp_encodeMsp (p : MsParticipant) (rest : List Nat) :
    parseMsp (encodeMsp p ++ rest) = some (p, rest) := by
  obtain ⟨v⟩ := p
  simp [parseMsp, encodeMsp, parseOptNat_encodeOptNat]

theorem parseSlate_encodeSlate (sl : Slate) (rest : List Nat) :
    parseSlate (encodeSlate sl ++ rest) = some (sl, rest) := by
  obtain ⟨fee, ⟨ins, outs⟩, pd⟩ := sl
  simp only [encodeSlate, List.append_assoc, parseSlate, parseNum_encodeNum,
    parseListOf_encodeListOf parseInput encodeInput parseInput_encodeInput,
    parseListOf_encodeListOf parseOutput encodeOutput parseOutput_encodeOutput,
    parseListOf_encodeListOf parsePd encodePd parsePd_encodePd]

theorem parseSwap_encodeSwap (s : Swap) (rest : List Nat) :
    parseSwap (encodeSwap s ++ rest) = some (s, rest) := by
  simp only [encodeSwap, List.append_assoc, parseSwap, parseNum_encodeNum,
    parseNetwork_encodeNetwork, parseRole_encodeRole, parseBool_encodeBool,
    parseSlate_encodeSlate,
    parseListOf_encodeListOf parseMsp encodeMsp parseMsp_encodeMsp]

theorem length_natToBytesBE : ∀ w n, (natToBytesBE w n).length = w := by
  intro w
  induction w with
  | zero => intro n; simp [natToBytesBE]
  | succ w ih => intro n; simp [natToBytesBE, ih]

theorem bytesBE_natToBytesBE : ∀ w n, n < 256 ^ w →
    bytesBE (natToBytesBE w n) = n := by
  intro w
  induction w with
  | zero =>
    intro n h
    simp only [pow_zero, Nat.lt_one_iff] at h
    subst h
    simp [natToBytesBE, bytesBE]
  | succ w ih =>
    intro n h
    rw [natToBytesBE]
    unfold bytesBE
    rw [List.foldl_append]
    show (bytesBE (natToBytesBE w (n / 256))) * 256 + n % 256 = n
    rw [ih (n / 256) (by rw [pow_succ] at h; omega)]
    omega

/-- C8: writing a session through the `Writeable` embedding — the
length-prefixed JSON byte string — and reading the stream back through the
`Readable` embedding yields the same session (leaving any trailing stream
bytes untouched), for every session whose serialized form fits the `u64`
length prefix. -/
theorem swap_serialization_round_trip (s : Swap) (rest : List Nat)
    (hlen : (encodeSwap s).length < W) :
    Swap.read (Swap.write s ++ rest) = some (s, rest) := by
  have h256 : (256 : Nat) ^ 8 = W := by norm_num [W]
  have hlen8 : (natToBytesBE 8 (encodeSwap s).length).length = 8 :=
    length_natToBytesBE 8 _
  have hbe : bytesBE (natToBytesBE 8 (encodeSwap s).length) =
      (encodeSwap s).length :=
    bytesBE_natToBytesBE 8 _ (by rw [h256]; exact hlen)
  have hp : parseSwap (encodeSwap s) = some (s, []) := by
    have h := parseSwap_encodeSwap s []
    rwa [List.append_nil] at h
  have hr : read_bytes_len_prefix (Swap.write s ++ rest) =
      some (encodeSwap s, rest) := by
    unfold Swap.write write_bytes read_bytes_len_prefix
    rw [List.append_assoc, List.take_left' hlen8, List.drop_left' hlen8, hbe]
    rw [if_pos (by simp [hlen8]), if_pos (by simp)]
    rw [List.take_left' rfl, List.drop_left' rfl]
  unfold Swap.read
  rw [hr]
  simp [hp]

/-- Witness: `swap_serialization_round_trip` on the base session. -/
theorem swap_serialization_round_trip_witness :
    (encodeSwap baseSwap).length < W ∧
      Swap.read (Swap.write baseSwap ++ [7]) = some (baseSwap, [7]) :=
  have hlen : (encodeSwap baseSwap).length < W := by decide
  ⟨hlen, swap_serialization_round_trip baseSwap [7] hlen⟩

end MwcSwap
